import Mathlib

/-!
Verification development for `generate_icons.py`, a script that procedurally
draws a set of app icons with rounded-rectangle primitives and emits a
`Contents.json`-style manifest.

The drawing layer of the script is the Pillow `ImageDraw` API.  We embed a
draw call as a `DrawCmd` value, so each Python drawing function becomes a Lean
function producing the list of draw commands it issues, in order.  Pixel-level
semantics are given by `applyCmd`/`applyTrace`: Pillow's `ImageDraw.Draw(img)`
on an `RGBA` image writes the ink colour (all four channels) directly into the
pixels of the drawn region; it alpha-blends only when the image mode is `RGB`
and the draw mode is `RGBA`, which is not the case here.  So a draw command
overwrites the pixels of its region with its colour.

Integer conventions: Python `//` (and `int(...)` applied to the nonnegative
scale products occurring here) is floor division, which agrees with Lean's
`Int` division `/` (Euclidean) for the positive divisors used, and with `Nat`
division on nonnegative operands.
-/

/-- An RGBA colour, one `Nat` per 8-bit channel. -/
structure Color where
  r : Nat
  g : Nat
  b : Nat
  a : Nat
deriving DecidableEq, Repr

/-- An RGB triple, as the colour constants at the top of the script
(`DARK_BG = (10, 10, 15)` etc.). -/
def RGB := Nat × Nat × Nat

/-- Python `(*c, alpha)`: extend an RGB triple with an explicit alpha. -/
def withAlpha (c : Nat × Nat × Nat) (a : Nat) : Color :=
  ⟨c.1, c.2.1, c.2.2, a⟩

def DARK_BG : Nat × Nat × Nat := (10, 10, 15)
def NEON_CYAN : Nat × Nat × Nat := (0, 255, 255)
def NEON_MAGENTA : Nat × Nat × Nat := (255, 0, 150)
def NEON_BLUE : Nat × Nat × Nat := (30, 144, 255)
def GRID_COLOR : Nat × Nat × Nat := (0, 80, 100)
def GLOW_CYAN : Nat × Nat × Nat := (0, 200, 220)

/-- One Pillow `ImageDraw` call issued by the script: `draw.line`,
`draw.arc`, `draw.rectangle(..., outline=...)`, `draw.rectangle(..., fill=...)`
or `draw.ellipse(..., fill=...)`.  Coordinates are the exact arguments of the
call; angles are Pillow degrees (clockwise from 3 o'clock, y pointing down). -/
inductive DrawCmd where
  | line (xa ya xb yb : Int) (color : Color) (width : Int)
  | arc (xa ya xb yb : Int) (angStart angEnd : Nat) (color : Color) (width : Int)
  | rectOutline (xa ya xb yb : Int) (color : Color) (width : Int)
  | rectFill (xa ya xb yb : Int) (color : Color)
  | ellipseFill (xa ya xb yb : Int) (color : Color)
deriving DecidableEq, Repr

/-- The ink colour of a draw command. -/
def cmdColor : DrawCmd → Color
  | .line _ _ _ _ c _ => c
  | .arc _ _ _ _ _ _ c _ => c
  | .rectOutline _ _ _ _ c _ => c
  | .rectFill _ _ _ _ c => c
  | .ellipseFill _ _ _ _ c => c

/-- Body of `draw_rounded_rect` after the coordinate normalization
(source lines 140-161): clamp the radius to half the smaller dimension,
fall back to a plain rectangle outline when the clamped radius is ≤ 0,
otherwise four edge lines plus four quarter-circle arcs. -/
def draw_rounded_rect_core (x1 y1 x2 y2 radius : Int) (color : Color)
    (width : Int) : List DrawCmd :=
  let max_radius := min ((x2 - x1) / 2) ((y2 - y1) / 2)
  let r := min radius max_radius
  if r ≤ 0 then
    [.rectOutline x1 y1 x2 y2 color width]
  else
    [.line (x1 + r) y1 (x2 - r) y1 color width,
     .line (x1 + r) y2 (x2 - r) y2 color width,
     .line x1 (y1 + r) x1 (y2 - r) color width,
     .line x2 (y1 + r) x2 (y2 - r) color width,
     .arc x1 y1 (x1 + r * 2) (y1 + r * 2) 180 270 color width,
     .arc (x2 - r * 2) y1 x2 (y1 + r * 2) 270 360 color width,
     .arc x1 (y2 - r * 2) (x1 + r * 2) y2 90 180 color width,
     .arc (x2 - r * 2) (y2 - r * 2) x2 y2 0 90 color width]

/-- `draw_rounded_rect` (source lines 132-161): normalize the two corners so
the first is top-left (`if x2 < x1: x1, x2 = x2, x1` and likewise for y),
then run the body. -/
def draw_rounded_rect (x1 y1 x2 y2 radius : Int) (color : Color)
    (width : Int) : List DrawCmd :=
  draw_rounded_rect_core
    (if x2 < x1 then x2 else x1) (if y2 < y1 then y2 else y1)
    (if x2 < x1 then x1 else x2) (if y2 < y1 then y1 else y2)
    radius color width

/-- Body of `draw_filled_rounded_rect` after the coordinate normalization
(source lines 172-187): clamp the radius, fall back to a plain filled
rectangle when the clamped radius is ≤ 0, otherwise two overlapping band
rectangles plus four filled corner circles. -/
def draw_filled_rounded_rect_core (x1 y1 x2 y2 radius : Int)
    (color : Color) : List DrawCmd :=
  let max_radius := min ((x2 - x1) / 2) ((y2 - y1) / 2)
  let r := min radius max_radius
  if r ≤ 0 then
    [.rectFill x1 y1 x2 y2 color]
  else
    [.rectFill (x1 + r) y1 (x2 - r) y2 color,
     .rectFill x1 (y1 + r) x2 (y2 - r) color,
     .ellipseFill x1 y1 (x1 + r * 2) (y1 + r * 2) color,
     .ellipseFill (x2 - r * 2) y1 x2 (y1 + r * 2) color,
     .ellipseFill x1 (y2 - r * 2) (x1 + r * 2) y2 color,
     .ellipseFill (x2 - r * 2) (y2 - r * 2) x2 y2 color]

/-- `draw_filled_rounded_rect` (source lines 164-187). -/
def draw_filled_rounded_rect (x1 y1 x2 y2 radius : Int)
    (color : Color) : List DrawCmd :=
  draw_filled_rounded_rect_core
    (if x2 < x1 then x2 else x1) (if y2 < y1 then y2 else y1)
    (if x2 < x1 then x1 else x2) (if y2 < y1 then y1 else y2)
    radius color

/-- One row of the `SIZES` table: `(pixel size, scale tag, file name)`. -/
structure SizeSpec where
  pixelSize : Nat
  scaleTag : String
  fileName : String
deriving DecidableEq, Repr

/-- The static `SIZES` table (source lines 13-24). -/
def SIZES : List SizeSpec :=
  [⟨16, "1x", "icon_16x16.png"⟩,
   ⟨32, "2x", "icon_16x16@2x.png"⟩,
   ⟨32, "1x", "icon_32x32.png"⟩,
   ⟨64, "2x", "icon_32x32@2x.png"⟩,
   ⟨128, "1x", "icon_128x128.png"⟩,
   ⟨256, "2x", "icon_128x128@2x.png"⟩,
   ⟨256, "1x", "icon_256x256.png"⟩,
   ⟨512, "2x", "icon_256x256@2x.png"⟩,
   ⟨512, "1x", "icon_512x512.png"⟩,
   ⟨1024, "2x", "icon_512x512@2x.png"⟩]

/-- One entry of the manifest's `images` list. -/
structure ManifestEntry where
  filename : String
  idiom : String
  scale : String
  size : String
deriving DecidableEq, Repr

/-- The manifest's `info` object. -/
structure ManifestInfo where
  author : String
  version : Nat
deriving DecidableEq, Repr

/-- The full manifest returned by `generate_contents_json`. -/
structure Manifest where
  images : List ManifestEntry
  info : ManifestInfo
deriving DecidableEq, Repr

/-- `generate_contents_json` (source lines 190-208): one entry per `SIZES`
row in order, with `base_size = size if scale == "1x" else size // 2` and the
size string `f"{base_size}x{base_size}"`, plus the fixed `info` object. -/
def generate_contents_json : Manifest :=
  { images := SIZES.map fun sp =>
      let base_size := if sp.scaleTag = "1x" then sp.pixelSize else sp.pixelSize / 2
      { filename := sp.fileName
        idiom := "mac"
        scale := sp.scaleTag
        size := toString base_size ++ "x" ++ toString base_size }
    info := { author := "xcode", version := 1 } }

/-- Pixels of Pillow's `draw.rectangle([xa, ya, xb, yb], fill=...)`: both
corners inclusive. -/
def inRect (xa ya xb yb x y : Int) : Prop :=
  xa ≤ x ∧ x ≤ xb ∧ ya ≤ y ∧ y ≤ yb

/-- Pixels within Euclidean distance `r` of the centre `(cx, cy)`. -/
def inDisc (cx cy r x y : Int) : Prop :=
  (x - cx) ^ 2 + (y - cy) ^ 2 ≤ r ^ 2

/-- Pixels of Pillow's filled ellipse with bounding box `[xa, ya, xb, yb]`:
points inside the ellipse with centre `((xa+xb)/2, (ya+yb)/2)` and half-axes
`(xb-xa)/2`, `(yb-ya)/2`, written without division by working with doubled
coordinates.  For the circles issued by this program (boxes of even extent
`2r`) this is exactly the disc of radius `r` about the integer centre. -/
def inEllipse (xa ya xb yb x y : Int) : Prop :=
  (2 * x - (xa + xb)) ^ 2 * (yb - ya) ^ 2 + (2 * y - (ya + yb)) ^ 2 * (xb - xa) ^ 2
    ≤ (xb - xa) ^ 2 * (yb - ya) ^ 2

/-- Pixels of a width-`w` line.  Every line this program draws is horizontal
or vertical; such a line of width `w` is modelled as a band `w` pixels thick
across the segment (cross-axis offsets `-(w-1)/2` to `w/2`, matching a
centred band with the extra pixel on the high side for even widths).  The
diagonal case does not occur in the program and is modelled coarsely as the
segment's bounding box. -/
def inLine (xa ya xb yb w x y : Int) : Prop :=
  (xa = xb ∧ min ya yb ≤ y ∧ y ≤ max ya yb ∧ xa - (w - 1) / 2 ≤ x ∧ x ≤ xa + w / 2) ∨
  (ya = yb ∧ min xa xb ≤ x ∧ x ≤ max xa xb ∧ ya - (w - 1) / 2 ≤ y ∧ y ≤ ya + w / 2) ∨
  (xa ≠ xb ∧ ya ≠ yb ∧ min xa xb ≤ x ∧ x ≤ max xa xb ∧ min ya yb ≤ y ∧ y ≤ max ya yb)

/-- Pixels of Pillow's rectangle outline of width `w`: the rectangle minus
its interior shrunk by `w` (the stroke thickens inward). -/
def inRectOutline (xa ya xb yb w x y : Int) : Prop :=
  inRect xa ya xb yb x y ∧ ¬ inRect (xa + w) (ya + w) (xb - w) (yb - w) x y

/-- Pixels of a width-`w` arc: the annulus of the ellipse minus the ellipse
shrunk by `w` (the stroke thickens inward), restricted to the quadrant named
by the angle pair.  Only the four quarter-circle angle pairs issued by
`draw_rounded_rect` are given a quadrant; other angle pairs do not occur. -/
def inArc (xa ya xb yb : Int) (a1 a2 : Nat) (w x y : Int) : Prop :=
  inEllipse xa ya xb yb x y ∧
  ¬ inEllipse (xa + w) (ya + w) (xb - w) (yb - w) x y ∧
  ((a1 = 180 ∧ a2 = 270 ∧ 2 * x ≤ xa + xb ∧ 2 * y ≤ ya + yb) ∨
   (a1 = 270 ∧ a2 = 360 ∧ xa + xb ≤ 2 * x ∧ 2 * y ≤ ya + yb) ∨
   (a1 = 90 ∧ a2 = 180 ∧ 2 * x ≤ xa + xb ∧ ya + yb ≤ 2 * y) ∨
   (a1 = 0 ∧ a2 = 90 ∧ xa + xb ≤ 2 * x ∧ ya + yb ≤ 2 * y))

/-- The set of pixels a draw command writes to. -/
def cmdPaints : DrawCmd → Int → Int → Prop
  | .line xa ya xb yb _ w, x, y => inLine xa ya xb yb w x y
  | .arc xa ya xb yb a1 a2 _ w, x, y => inArc xa ya xb yb a1 a2 w x y
  | .rectOutline xa ya xb yb _ w, x, y => inRectOutline xa ya xb yb w x y
  | .rectFill xa ya xb yb _, x, y => inRect xa ya xb yb x y
  | .ellipseFill xa ya xb yb _, x, y => inEllipse xa ya xb yb x y

instance (xa ya xb yb x y : Int) : Decidable (inRect xa ya xb yb x y) := by
  unfold inRect; infer_instance

instance (cx cy r x y : Int) : Decidable (inDisc cx cy r x y) := by
  unfold inDisc; infer_instance

instance (xa ya xb yb x y : Int) : Decidable (inEllipse xa ya xb yb x y) := by
  unfold inEllipse; infer_instance

instance (xa ya xb yb w x y : Int) : Decidable (inLine xa ya xb yb w x y) := by
  unfold inLine; infer_instance

instance (xa ya xb yb w x y : Int) : Decidable (inRectOutline xa ya xb yb w x y) := by
  unfold inRectOutline; infer_instance

instance (xa ya xb yb : Int) (a1 a2 : Nat) (w x y : Int) :
    Decidable (inArc xa ya xb yb a1 a2 w x y) := by
  unfold inArc; infer_instance

instance (c : DrawCmd) (x y : Int) : Decidable (cmdPaints c x y) :=
  match c with
  | .line xa ya xb yb _ w => inferInstanceAs (Decidable (inLine xa ya xb yb w x y))
  | .arc xa ya xb yb a1 a2 _ w => inferInstanceAs (Decidable (inArc xa ya xb yb a1 a2 w x y))
  | .rectOutline xa ya xb yb _ w => inferInstanceAs (Decidable (inRectOutline xa ya xb yb w x y))
  | .rectFill xa ya xb yb _ => inferInstanceAs (Decidable (inRect xa ya xb yb x y))
  | .ellipseFill xa ya xb yb _ => inferInstanceAs (Decidable (inEllipse xa ya xb yb x y))

/-- An unbounded plane of RGBA pixels (the image is the `size × size`
window of it; Pillow clips drawing to the window, which does not matter for
the in-bounds statements proved below). -/
abbrev Canvas := Int → Int → Color

/-- Pillow `ImageDraw` on an `RGBA` image: a draw call overwrites each pixel
of its region with the ink colour, all four channels, with no blending. -/
def applyCmd (canvas : Canvas) (cmd : DrawCmd) : Canvas :=
  fun x y => if cmdPaints cmd x y then cmdColor cmd else canvas x y

/-- Run a list of draw commands in order over a canvas. -/
def applyTrace (canvas : Canvas) (t : List DrawCmd) : Canvas :=
  t.foldl applyCmd canvas

/-- `Image.new('RGBA', (size, size), DARK_BG)`: every pixel starts as the
opaque dark background (a 3-tuple colour gets alpha 255). -/
def initCanvas : Canvas := fun _ _ => withAlpha DARK_BG 255

/-- `int(k * scale)` where `scale = size / 512` (source line 42): the float
products `k * (size / 512)` occurring in the script are exact in double
precision for the magnitudes involved, so truncation gives exactly
`k * size / 512` rounded toward zero, i.e. `Nat` floor division. -/
def iscale (k s : Nat) : Int := ((k * s) / 512 : Nat)

/-- `grid_spacing = int(32 * scale)` (source line 45), kept as a `Nat`
because it is used as a Python `range` step. -/
def grid_spacing (s : Nat) : Nat := 32 * s / 512

/-- `padding = int(60 * scale)` (source line 53). -/
def padding (s : Nat) : Int := iscale 60 s

/-- `border_width = max(2, int(8 * scale))` (source line 57). -/
def border_width (s : Nat) : Int := max 2 (iscale 8 s)

/-- `corner_radius = int(80 * scale)` (source line 58). -/
def corner_radius (s : Nat) : Int := iscale 80 s

/-- `grid_padding = int(100 * scale)` (source line 73). -/
def grid_padding (s : Nat) : Int := iscale 100 s

/-- `grid_size = size - (grid_padding * 2)` (source line 74). -/
def grid_size (s : Nat) : Int := (s : Int) - grid_padding s * 2

/-- `cell_gap = int(16 * scale)` (source line 75). -/
def cell_gap (s : Nat) : Int := iscale 16 s

/-- `cell_size = (grid_size - cell_gap) // 2` (source line 76). -/
def cell_size (s : Nat) : Int := (grid_size s - cell_gap s) / 2

/-- `cell_corner = int(12 * scale)` (source line 89). -/
def cell_corner (s : Nat) : Int := iscale 12 s

/-- `accent_len = int(30 * scale)` (source line 112). -/
def accent_len (s : Nat) : Int := iscale 30 s

/-- `accent_width = max(2, int(4 * scale))` (source line 113). -/
def accent_width (s : Nat) : Int := max 2 (iscale 4 s)

/-- Python `range(0, stop, step)` for a positive step: the multiples of
`step` below `stop`, in increasing order. -/
def rangeStep (stop step : Nat) : List Nat :=
  (List.range ((stop + step - 1) / step)).map (· * step)

/-- Background grid pass (source lines 45-50): when the spacing exceeds 2,
vertical then horizontal faint lines at every multiple of the spacing. -/
def gridPass (s : Nat) : List DrawCmd :=
  if 2 < grid_spacing s then
    ((rangeStep s (grid_spacing s)).map fun (x : Nat) =>
      DrawCmd.line (x : Int) 0 (x : Int) (s : Int)
        (withAlpha GRID_COLOR 40) (max 1 (iscale 1 s))) ++
    ((rangeStep s (grid_spacing s)).map fun (y : Nat) =>
      DrawCmd.line 0 (y : Int) (s : Int) (y : Int)
        (withAlpha GRID_COLOR 40) (max 1 (iscale 1 s)))
  else []

/-- Outer border glow pass (source lines 61-66): `for i in range(3, 0, -1)`,
three progressively smaller, more opaque glow outlines. -/
def borderGlowPass (s : Nat) : List DrawCmd :=
  ([3, 2, 1] : List Nat).flatMap fun i =>
    draw_rounded_rect (padding s - i * 2) (padding s - i * 2)
      ((s : Int) - padding s + i * 2) ((s : Int) - padding s + i * 2)
      (corner_radius s + i * 2) (withAlpha NEON_CYAN (80 - i * 20))
      (border_width s + i * iscale 4 s)

/-- Main border pass (source lines 69-70). -/
def mainBorderPass (s : Nat) : List DrawCmd :=
  draw_rounded_rect (padding s) (padding s)
    ((s : Int) - padding s) ((s : Int) - padding s)
    (corner_radius s) (withAlpha NEON_CYAN 255) (border_width s)

/-- `tile_positions` (source lines 78-83): top-left corners of the four
cells of the 2x2 tile grid. -/
def tile_positions (s : Nat) : List (Int × Int) :=
  [(grid_padding s, grid_padding s),
   (grid_padding s + cell_size s + cell_gap s, grid_padding s),
   (grid_padding s, grid_padding s + cell_size s + cell_gap s),
   (grid_padding s + cell_size s + cell_gap s, grid_padding s + cell_size s + cell_gap s)]

/-- `tile_colors` (source line 85). -/
def tile_colors : List (Nat × Nat × Nat) :=
  [NEON_CYAN, NEON_MAGENTA, NEON_BLUE, NEON_CYAN]

/-- Drawing of one tile cell (source lines 87-104): two glow outlines
(`for g in range(2, 0, -1)`), a semi-transparent fill at alpha 40, and a
crisp border at alpha 220. -/
def cellPass (s : Nat) (tx ty : Int) (color : Nat × Nat × Nat) : List DrawCmd :=
  (([2, 1] : List Nat).flatMap fun g =>
    draw_rounded_rect (tx - g) (ty - g)
      (tx + cell_size s + g) (ty + cell_size s + g)
      (cell_corner s + g) (withAlpha color (60 - g * 20)) (max 1 (iscale 2 s))) ++
  draw_filled_rounded_rect tx ty (tx + cell_size s) (ty + cell_size s)
    (cell_corner s) (withAlpha color 40) ++
  draw_rounded_rect tx ty (tx + cell_size s) (ty + cell_size s)
    (cell_corner s) (withAlpha color 220) (max 1 (iscale 3 s))

/-- The 2x2 tile grid pass (source lines 87-104): the four cells in the
order of `tile_positions`, coloured cyan, magenta, blue, cyan. -/
def tilesPass (s : Nat) : List DrawCmd :=
  cellPass s (grid_padding s) (grid_padding s) NEON_CYAN ++
  cellPass s (grid_padding s + cell_size s + cell_gap s) (grid_padding s) NEON_MAGENTA ++
  cellPass s (grid_padding s) (grid_padding s + cell_size s + cell_gap s) NEON_BLUE ++
  cellPass s (grid_padding s + cell_size s + cell_gap s)
    (grid_padding s + cell_size s + cell_gap s) NEON_CYAN

/-- Scanline pass (source lines 107-109): for sizes ≥ 128, a 1-pixel
near-black line at every fourth row. -/
def scanPass (s : Nat) : List DrawCmd :=
  if 128 ≤ s then
    (rangeStep s 4).map fun (y : Nat) =>
      DrawCmd.line 0 (y : Int) (s : Int) (y : Int) ⟨0, 0, 0, 15⟩ 1
  else []

/-- Corner accent pass (source lines 112-127): two L-shaped magenta accents
at the top-left and bottom-right of the content border. -/
def accentPass (s : Nat) : List DrawCmd :=
  [.line (padding s) (padding s + corner_radius s)
     (padding s) (padding s + corner_radius s + accent_len s)
     (withAlpha NEON_MAGENTA 255) (accent_width s),
   .line (padding s + corner_radius s) (padding s)
     (padding s + corner_radius s + accent_len s) (padding s)
     (withAlpha NEON_MAGENTA 255) (accent_width s),
   .line ((s : Int) - padding s) ((s : Int) - padding s - corner_radius s)
     ((s : Int) - padding s) ((s : Int) - padding s - corner_radius s - accent_len s)
     (withAlpha NEON_MAGENTA 255) (accent_width s),
   .line ((s : Int) - padding s - corner_radius s) ((s : Int) - padding s)
     ((s : Int) - padding s - corner_radius s - accent_len s) ((s : Int) - padding s)
     (withAlpha NEON_MAGENTA 255) (accent_width s)]

/-- `create_cyberpunk_icon` (source lines 35-129) as the ordered list of
draw commands it issues over the freshly filled canvas: background grid,
border glow, main border, tile cells, scanlines, corner accents. -/
def create_cyberpunk_icon (s : Nat) : List DrawCmd :=
  gridPass s ++ borderGlowPass s ++ mainBorderPass s ++ tilesPass s ++
    scanPass s ++ accentPass s

/-- The canvas returned by `create_cyberpunk_icon`: all commands applied to
the opaque dark background. -/
def render (s : Nat) : Canvas :=
  applyTrace initCanvas (create_cyberpunk_icon s)

/-- The rectangles drawn for the tile cells (the fill/border rectangle at
offset 0 and the two glow rectangles at outward offsets 1 and 2), for the
in-bounds invariant. -/
def cellRects (s : Nat) : List (Int × Int × Int × Int) :=
  (tile_positions s).flatMap fun p =>
    (([2, 1, 0] : List Int).map fun g =>
      (p.1 - g, p.2 - g, p.1 + cell_size s + g, p.2 + cell_size s + g))

/-- The rounded-rectangle region with corners `(x1, y1)`/`(x2, y2)` and
corner radius `r`: the pixels of the bounding rectangle, where a pixel in
one of the four `r × r` corner zones must additionally lie in the disc of
radius `r` about that corner's centre.  This is the region the spec's fill
contract describes; the fill primitive is compared against it. -/
def roundedRectRegion (x1 y1 x2 y2 r x y : Int) : Prop :=
  inRect x1 y1 x2 y2 x y ∧
  (x < x1 + r → y < y1 + r → inDisc (x1 + r) (y1 + r) r x y) ∧
  (x2 - r < x → y < y1 + r → inDisc (x2 - r) (y1 + r) r x y) ∧
  (x < x1 + r → y2 - r < y → inDisc (x1 + r) (y2 - r) r x y) ∧
  (x2 - r < x → y2 - r < y → inDisc (x2 - r) (y2 - r) r x y)

instance (x1 y1 x2 y2 r x y : Int) : Decidable (roundedRectRegion x1 y1 x2 y2 r x y) := by
  unfold roundedRectRegion; infer_instance

/-- Modelled from the spec: standard alpha-over compositing of a source
colour onto a destination colour with 8-bit channels (integer arithmetic,
round toward zero).  The spec claims later drawing passes combine with the
canvas this way; the code does not, which is what the C5 counterexample
shows, so this definition follows the spec's words, not the source. -/
def specAlphaOver (src dst : Color) : Color :=
  let outA := src.a + dst.a * (255 - src.a) / 255
  if outA = 0 then ⟨0, 0, 0, 0⟩
  else
    ⟨(src.r * src.a + dst.r * dst.a * (255 - src.a) / 255) / outA,
     (src.g * src.a + dst.g * dst.a * (255 - src.a) / 255) / outA,
     (src.b * src.a + dst.b * dst.a * (255 - src.a) / 255) / outA,
     outA⟩

/-- All four coordinates of a rectangle `(x1, y1, x2, y2)` lie within
`[0, s]`. -/
def rectWithin (s : Nat) (q : Int × Int × Int × Int) : Prop :=
  0 ≤ q.1 ∧ q.1 ≤ s ∧ 0 ≤ q.2.1 ∧ q.2.1 ≤ s ∧
  0 ≤ q.2.2.1 ∧ q.2.2.1 ≤ s ∧ 0 ≤ q.2.2.2 ∧ q.2.2.2 ≤ s

instance (s : Nat) (q : Int × Int × Int × Int) : Decidable (rectWithin s q) := by
  unfold rectWithin; infer_instance

theorem ite_swap_min (a b : Int) : (if b < a then b else a) = min a b := by
  split <;> omega

theorem ite_swap_max (a b : Int) : (if b < a then a else b) = max a b := by
  split <;> omega

theorem draw_rounded_rect_eq_core (x1 y1 x2 y2 r : Int) (c : Color) (w : Int) :
    draw_rounded_rect x1 y1 x2 y2 r c w =
      draw_rounded_rect_core (min x1 x2) (min y1 y2) (max x1 x2) (max y1 y2) r c w := by
  unfold draw_rounded_rect
  rw [ite_swap_min x1 x2, ite_swap_min y1 y2, ite_swap_max x1 x2, ite_swap_max y1 y2]

theorem draw_filled_rounded_rect_eq_core (x1 y1 x2 y2 r : Int) (c : Color) :
    draw_filled_rounded_rect x1 y1 x2 y2 r c =
      draw_filled_rounded_rect_core (min x1 x2) (min y1 y2) (max x1 x2) (max y1 y2) r c := by
  unfold draw_filled_rounded_rect
  rw [ite_swap_min x1 x2, ite_swap_min y1 y2, ite_swap_max x1 x2, ite_swap_max y1 y2]

/-- C1: the manifest builder, applied to the static 10-entry size table,
returns exactly one entry per table row in table order — filename from the
table, idiom "mac", the table's scale tag, and the logical size string
(pixel size halved for "2x" rows), in particular "16x16" for the 32-pixel
"2x" row and "512x512" for the 512-pixel "1x" row — plus the info object
with author "xcode" and version 1. -/
theorem manifest_builder_output : generate_contents_json =
    { images :=
        [⟨"icon_16x16.png", "mac", "1x", "16x16"⟩,
         ⟨"icon_16x16@2x.png", "mac", "2x", "16x16"⟩,
         ⟨"icon_32x32.png", "mac", "1x", "32x32"⟩,
         ⟨"icon_32x32@2x.png", "mac", "2x", "32x32"⟩,
         ⟨"icon_128x128.png", "mac", "1x", "128x128"⟩,
         ⟨"icon_128x128@2x.png", "mac", "2x", "128x128"⟩,
         ⟨"icon_256x256.png", "mac", "1x", "256x256"⟩,
         ⟨"icon_256x256@2x.png", "mac", "2x", "256x256"⟩,
         ⟨"icon_512x512.png", "mac", "1x", "512x512"⟩,
         ⟨"icon_512x512@2x.png", "mac", "2x", "512x512"⟩],
      info := ⟨"xcode", 1⟩ } := by
  rfl

/-- C2: for a normalized rectangle and any requested radius at least the
half-shorter-side bound `min((x2-x1)/2, (y2-y1)/2)`, both the outline and
the fill primitive issue exactly the draw commands of a call with radius
equal to that bound (the radius is clamped, and clamping is idempotent),
hence the same canvas effect. -/
theorem radius_clamp_idempotent (x1 y1 x2 y2 radius : Int) (c : Color) (w : Int)
    (hx : x1 ≤ x2) (hy : y1 ≤ y2)
    (hr : min ((x2 - x1) / 2) ((y2 - y1) / 2) ≤ radius) :
    draw_rounded_rect x1 y1 x2 y2 radius c w =
      draw_rounded_rect x1 y1 x2 y2 (min ((x2 - x1) / 2) ((y2 - y1) / 2)) c w ∧
    draw_filled_rounded_rect x1 y1 x2 y2 radius c =
      draw_filled_rounded_rect x1 y1 x2 y2 (min ((x2 - x1) / 2) ((y2 - y1) / 2)) c := by
  have hx' : ¬x2 < x1 := not_lt.mpr hx
  have hy' : ¬y2 < y1 := not_lt.mpr hy
  constructor
  · simp only [draw_rounded_rect, if_neg hx', if_neg hy', draw_rounded_rect_core]
    rw [min_eq_right hr, min_self]
  · simp only [draw_filled_rounded_rect, if_neg hx', if_neg hy',
      draw_filled_rounded_rect_core]
    rw [min_eq_right hr, min_self]

/-- C2 witness: at the rectangle (0,0)-(10,10) the bound is 5, and a call
with requested radius 99 issues the same commands as one with radius 5. -/
theorem radius_clamp_idempotent_witness :
    draw_rounded_rect 0 0 10 10 99 (withAlpha NEON_CYAN 255) 3 =
      draw_rounded_rect 0 0 10 10 (min ((10 - 0) / 2) ((10 - 0) / 2)) (withAlpha NEON_CYAN 255) 3 ∧
    draw_filled_rounded_rect 0 0 10 10 99 (withAlpha NEON_CYAN 255) =
      draw_filled_rounded_rect 0 0 10 10 (min ((10 - 0) / 2) ((10 - 0) / 2)) (withAlpha NEON_CYAN 255) :=
  radius_clamp_idempotent 0 0 10 10 99 (withAlpha NEON_CYAN 255) 3
    (by decide) (by decide) (by decide)

/-- C3: for a normalized rectangle and any requested radius whose clamped
value is ≤ 0, the outline primitive issues exactly one plain rectangle
outline command of the given colour and stroke width, and the fill primitive
exactly one plain filled rectangle command of the given colour — no line,
arc, or ellipse command at all. -/
theorem degenerate_radius_plain_rect (x1 y1 x2 y2 radius : Int) (c : Color) (w : Int)
    (hx : x1 ≤ x2) (hy : y1 ≤ y2)
    (hr : min radius (min ((x2 - x1) / 2) ((y2 - y1) / 2)) ≤ 0) :
    draw_rounded_rect x1 y1 x2 y2 radius c w = [.rectOutline x1 y1 x2 y2 c w] ∧
    draw_filled_rounded_rect x1 y1 x2 y2 radius c = [.rectFill x1 y1 x2 y2 c] := by
  have hx' : ¬x2 < x1 := not_lt.mpr hx
  have hy' : ¬y2 < y1 := not_lt.mpr hy
  constructor
  · simp only [draw_rounded_rect, if_neg hx', if_neg hy', draw_rounded_rect_core]
    rw [if_pos hr]
  · simp only [draw_filled_rounded_rect, if_neg hx', if_neg hy',
      draw_filled_rounded_rect_core]
    rw [if_pos hr]

/-- C3 witness: the degenerate rectangle (0,0)-(0,7) clamps any radius to 0
and both primitives degrade to a single plain rectangle command. -/
theorem degenerate_radius_plain_rect_witness :
    draw_rounded_rect 0 0 0 7 5 (withAlpha NEON_CYAN 255) 2 =
      [.rectOutline 0 0 0 7 (withAlpha NEON_CYAN 255) 2] ∧
    draw_filled_rounded_rect 0 0 0 7 5 (withAlpha NEON_CYAN 255) =
      [.rectFill 0 0 0 7 (withAlpha NEON_CYAN 255)] :=
  degenerate_radius_plain_rect 0 0 0 7 5 (withAlpha NEON_CYAN 255) 2
    (by decide) (by decide) (by decide)

/-- C6: exchanging the two corner points — wholly, or only their x or only
their y coordinates — leaves both primitives' output exactly equal to the
call with the corners in normalized top-left/bottom-right order. -/
theorem corner_normalization_invariant (x1 y1 x2 y2 radius : Int) (c : Color) (w : Int) :
    (draw_rounded_rect x2 y2 x1 y1 radius c w =
       draw_rounded_rect (min x1 x2) (min y1 y2) (max x1 x2) (max y1 y2) radius c w ∧
     draw_rounded_rect x2 y1 x1 y2 radius c w =
       draw_rounded_rect (min x1 x2) (min y1 y2) (max x1 x2) (max y1 y2) radius c w ∧
     draw_rounded_rect x1 y2 x2 y1 radius c w =
       draw_rounded_rect (min x1 x2) (min y1 y2) (max x1 x2) (max y1 y2) radius c w ∧
     draw_rounded_rect x1 y1 x2 y2 radius c w =
       draw_rounded_rect (min x1 x2) (min y1 y2) (max x1 x2) (max y1 y2) radius c w) ∧
    (draw_filled_rounded_rect x2 y2 x1 y1 radius c =
       draw_filled_rounded_rect (min x1 x2) (min y1 y2) (max x1 x2) (max y1 y2) radius c ∧
     draw_filled_rounded_rect x2 y1 x1 y2 radius c =
       draw_filled_rounded_rect (min x1 x2) (min y1 y2) (max x1 x2) (max y1 y2) radius c ∧
     draw_filled_rounded_rect x1 y2 x2 y1 radius c =
       draw_filled_rounded_rect (min x1 x2) (min y1 y2) (max x1 x2) (max y1 y2) radius c ∧
     draw_filled_rounded_rect x1 y1 x2 y2 radius c =
       draw_filled_rounded_rect (min x1 x2) (min y1 y2) (max x1 x2) (max y1 y2) radius c) := by
  have mmm : min (min x1 x2) (max x1 x2) = min x1 x2 := by omega
  have mmx : max (min x1 x2) (max x1 x2) = max x1 x2 := by omega
  have nmm : min (min y1 y2) (max y1 y2) = min y1 y2 := by omega
  have nmx : max (min y1 y2) (max y1 y2) = max y1 y2 := by omega
  have cx : min x2 x1 = min x1 x2 := by omega
  have dx : max x2 x1 = max x1 x2 := by omega
  have cy : min y2 y1 = min y1 y2 := by omega
  have dy : max y2 y1 = max y1 y2 := by omega
  refine ⟨⟨?_, ?_, ?_, ?_⟩, ?_, ?_, ?_, ?_⟩ <;>
    simp only [draw_rounded_rect_eq_core, draw_filled_rounded_rect_eq_core,
      mmm, mmx, nmm, nmx, cx, dx, cy, dy]

theorem mem_filled_color {x1 y1 x2 y2 r : Int} {c : Color} {cmd : DrawCmd}
    (h : cmd ∈ draw_filled_rounded_rect x1 y1 x2 y2 r c) : cmdColor cmd = c := by
  rw [draw_filled_rounded_rect_eq_core] at h
  simp only [draw_filled_rounded_rect_core] at h
  split at h
  · simp only [List.mem_singleton] at h
    subst h; rfl
  · simp only [List.mem_cons, List.not_mem_nil, or_false] at h
    rcases h with rfl | rfl | rfl | rfl | rfl | rfl <;> rfl

theorem mem_rounded_color {x1 y1 x2 y2 r : Int} {c : Color} {w : Int} {cmd : DrawCmd}
    (h : cmd ∈ draw_rounded_rect x1 y1 x2 y2 r c w) : cmdColor cmd = c := by
  rw [draw_rounded_rect_eq_core] at h
  simp only [draw_rounded_rect_core] at h
  split at h
  · simp only [List.mem_singleton] at h
    subst h; rfl
  · simp only [List.mem_cons, List.not_mem_nil, or_false] at h
    rcases h with rfl | rfl | rfl | rfl | rfl | rfl | rfl | rfl <;> rfl

theorem applyTrace_const (t : List DrawCmd) (c : Color) (canvas : Canvas) (x y : Int)
    (h : ∀ cmd ∈ t, cmdColor cmd = c) :
    applyTrace canvas t x y =
      if ∃ cmd ∈ t, cmdPaints cmd x y then c else canvas x y := by
  induction t generalizing canvas with
  | nil => simp [applyTrace]
  | cons hd tl ih =>
    have hhd : cmdColor hd = c := h hd (List.mem_cons_self hd tl)
    have htl : ∀ cmd ∈ tl, cmdColor cmd = c :=
      fun cmd hm => h cmd (List.mem_cons_of_mem hd hm)
    show applyTrace (applyCmd canvas hd) tl x y = _
    rw [ih (applyCmd canvas hd) htl]
    by_cases h1 : ∃ cmd ∈ tl, cmdPaints cmd x y
    · obtain ⟨cmd, hm, hp⟩ := h1
      rw [if_pos ⟨cmd, hm, hp⟩, if_pos ⟨cmd, List.mem_cons_of_mem hd hm, hp⟩]
    · rw [if_neg h1]
      unfold applyCmd
      by_cases h2 : cmdPaints hd x y
      · rw [if_pos h2, hhd, if_pos ⟨hd, List.mem_cons_self hd tl, h2⟩]
      · rw [if_neg h2, if_neg ?_]
        rintro ⟨cmd, hm, hp⟩
        rcases List.mem_cons.mp hm with rfl | hm2
        · exact h2 hp
        · exact h1 ⟨cmd, hm2, hp⟩

/-- C5 counterexample: drawing the tile-cell fill colour (cyan at alpha 40)
over the freshly painted opaque dark background stores the translucent fill
colour itself in the pixel — it is not the alpha-over composite of the fill
colour over what was beneath (which would be opaque). -/
theorem alpha_blend_counterexample :
    applyTrace initCanvas
        (draw_filled_rounded_rect 0 0 10 10 2 (withAlpha NEON_CYAN 40)) 5 5 ≠
      specAlphaOver (withAlpha NEON_CYAN 40) (initCanvas 5 5) := by
  decide

/-- C5 (amended): Pillow `ImageDraw` on an `RGBA` image does not blend.
Every draw command overwrites the pixels of its region with its ink colour,
all four channels; in particular the fill primitive, given a colour with any
alpha, stores exactly that colour (alpha included) at every painted pixel
and leaves other pixels untouched, rather than alpha-over compositing onto
what was already drawn beneath. -/
theorem draw_overwrites_no_blending :
    (∀ (canvas : Canvas) (cmd : DrawCmd) (x y : Int),
       applyCmd canvas cmd x y =
         if cmdPaints cmd x y then cmdColor cmd else canvas x y) ∧
    (∀ (canvas : Canvas) (x1 y1 x2 y2 r : Int) (c : Color) (x y : Int),
       applyTrace canvas (draw_filled_rounded_rect x1 y1 x2 y2 r c) x y =
         if ∃ cmd ∈ draw_filled_rounded_rect x1 y1 x2 y2 r c, cmdPaints cmd x y
         then c else canvas x y) :=
  ⟨fun _ _ _ _ => rfl,
   fun canvas _ _ _ _ _ c x y =>
     applyTrace_const _ c canvas x y fun _ hm => mem_filled_color hm⟩

theorem sq_le_sq_two_sided {a b : Int} (h1 : -b ≤ a) (h2 : a ≤ b) : a ^ 2 ≤ b ^ 2 := by
  nlinarith [mul_nonneg (show (0:Int) ≤ b - a by omega) (show (0:Int) ≤ b + a by omega)]

theorem sq_le_sq_swap {a b : Int} (h1 : b ≤ a) (h2 : a ≤ -b) : a ^ 2 ≤ b ^ 2 := by
  nlinarith [mul_nonneg (show (0:Int) ≤ a - b by omega) (show (0:Int) ≤ -b - a by omega)]

theorem le_of_sq_le_sq_int {d r : Int} (hr : 0 ≤ r) (h : d ^ 2 ≤ r ^ 2) :
    -r ≤ d ∧ d ≤ r := by
  constructor
  · by_contra hc
    push_neg at hc
    have h1 : 0 < -d - r := by omega
    have h2 : 0 < -d + r := by omega
    nlinarith [mul_pos h1 h2]
  · by_contra hc
    push_neg at hc
    have h1 : 0 < d - r := by omega
    have h2 : 0 < d + r := by omega
    nlinarith [mul_pos h1 h2]

theorem inDisc_bounds {cx cy r x y : Int} (hr : 0 ≤ r) (h : inDisc cx cy r x y) :
    cx - r ≤ x ∧ x ≤ cx + r ∧ cy - r ≤ y ∧ y ≤ cy + r := by
  unfold inDisc at h
  have hx := le_of_sq_le_sq_int hr
    (show (x - cx) ^ 2 ≤ r ^ 2 by nlinarith [sq_nonneg (y - cy)])
  have hy := le_of_sq_le_sq_int hr
    (show (y - cy) ^ 2 ≤ r ^ 2 by nlinarith [sq_nonneg (x - cx)])
  omega

theorem inDisc_shift {cx cy cx2 cy2 r x y : Int} (h : inDisc cx cy r x y)
    (hx : (x - cx2) ^ 2 ≤ (x - cx) ^ 2) (hy : (y - cy2) ^ 2 ≤ (y - cy) ^ 2) :
    inDisc cx2 cy2 r x y := by
  unfold inDisc at *
  linarith

theorem inEllipse_iff_disc {xa ya xb yb cx cy r x y : Int} (hr : 0 < r)
    (hbx : xb - xa = 2 * r) (hby : yb - ya = 2 * r)
    (hcx : 2 * cx = xa + xb) (hcy : 2 * cy = ya + yb) :
    inEllipse xa ya xb yb x y ↔ inDisc cx cy r x y := by
  unfold inEllipse inDisc
  rw [← hcx, ← hcy, hbx, hby]
  have h4 : (0:Int) < 4 * r ^ 2 := by positivity
  constructor
  · intro h
    have h2 : (2 * x - 2 * cx) ^ 2 * (2 * r) ^ 2 + (2 * y - 2 * cy) ^ 2 * (2 * r) ^ 2 =
        4 * r ^ 2 * (4 * ((x - cx) ^ 2 + (y - cy) ^ 2)) := by ring
    have h3 : (2 * r) ^ 2 * (2 * r) ^ 2 = 4 * r ^ 2 * (4 * r ^ 2) := by ring
    rw [h2, h3] at h
    have h5 := le_of_mul_le_mul_left h h4
    linarith
  · intro h
    nlinarith [mul_le_mul_of_nonneg_left h (show (0:Int) ≤ 16 * r ^ 2 by positivity)]

theorem rounded_cover {x1 y1 x2 y2 r x y : Int}
    (hr : 0 < r) (hrx : 2 * r ≤ x2 - x1) (hry : 2 * r ≤ y2 - y1) :
    roundedRectRegion x1 y1 x2 y2 r x y ↔
      (inRect (x1 + r) y1 (x2 - r) y2 x y ∨ inRect x1 (y1 + r) x2 (y2 - r) x y ∨
       inDisc (x1 + r) (y1 + r) r x y ∨ inDisc (x2 - r) (y1 + r) r x y ∨
       inDisc (x1 + r) (y2 - r) r x y ∨ inDisc (x2 - r) (y2 - r) r x y) := by
  have hr0 : 0 ≤ r := le_of_lt hr
  constructor
  · rintro ⟨⟨hx1, hx2, hy1, hy2⟩, hTL, hTR, hBL, hBR⟩
    rcases lt_or_le x (x1 + r) with hxl | hxge
    · rcases lt_or_le y (y1 + r) with hyl | hyge
      · exact Or.inr (Or.inr (Or.inl (hTL hxl hyl)))
      · rcases le_or_lt y (y2 - r) with hyle | hygt
        · exact Or.inr (Or.inl ⟨hx1, hx2, hyge, hyle⟩)
        · exact Or.inr (Or.inr (Or.inr (Or.inr (Or.inl (hBL hxl hygt)))))
    · rcases le_or_lt x (x2 - r) with hxle | hxgt
      · exact Or.inl ⟨hxge, hxle, hy1, hy2⟩
      · rcases lt_or_le y (y1 + r) with hyl | hyge
        · exact Or.inr (Or.inr (Or.inr (Or.inl (hTR hxgt hyl))))
        · rcases le_or_lt y (y2 - r) with hyle | hygt
          · exact Or.inr (Or.inl ⟨hx1, hx2, hyge, hyle⟩)
          · exact Or.inr (Or.inr (Or.inr (Or.inr (Or.inr (hBR hxgt hygt)))))
  · intro h
    rcases h with ⟨ha, hb, hc, hd⟩ | ⟨ha, hb, hc, hd⟩ | h | h | h | h
    · exact ⟨⟨by omega, by omega, hc, hd⟩,
        fun h1 h2 => by exfalso; omega, fun h1 h2 => by exfalso; omega,
        fun h1 h2 => by exfalso; omega, fun h1 h2 => by exfalso; omega⟩
    · exact ⟨⟨ha, hb, by omega, by omega⟩,
        fun h1 h2 => by exfalso; omega, fun h1 h2 => by exfalso; omega,
        fun h1 h2 => by exfalso; omega, fun h1 h2 => by exfalso; omega⟩
    · obtain ⟨b1, b2, b3, b4⟩ := inDisc_bounds hr0 h
      refine ⟨⟨by omega, by omega, by omega, by omega⟩, fun _ _ => h, ?_, ?_, ?_⟩
      · intro h1 h2
        exact inDisc_shift h (sq_le_sq_two_sided (by omega) (by omega)) (le_refl _)
      · intro h1 h2
        exact inDisc_shift h (le_refl _) (sq_le_sq_two_sided (by omega) (by omega))
      · intro h1 h2
        exact inDisc_shift h (sq_le_sq_two_sided (by omega) (by omega))
          (sq_le_sq_two_sided (by omega) (by omega))
    · obtain ⟨b1, b2, b3, b4⟩ := inDisc_bounds hr0 h
      refine ⟨⟨by omega, by omega, by omega, by omega⟩, ?_, fun _ _ => h, ?_, ?_⟩
      · intro h1 h2
        exact inDisc_shift h (sq_le_sq_swap (by omega) (by omega)) (le_refl _)
      · intro h1 h2
        exact inDisc_shift h (sq_le_sq_swap (by omega) (by omega))
          (sq_le_sq_two_sided (by omega) (by omega))
      · intro h1 h2
        exact inDisc_shift h (le_refl _) (sq_le_sq_two_sided (by omega) (by omega))
    · obtain ⟨b1, b2, b3, b4⟩ := inDisc_bounds hr0 h
      refine ⟨⟨by omega, by omega, by omega, by omega⟩, ?_, ?_, fun _ _ => h, ?_⟩
      · intro h1 h2
        exact inDisc_shift h (le_refl _) (sq_le_sq_swap (by omega) (by omega))
      · intro h1 h2
        exact inDisc_shift h (sq_le_sq_two_sided (by omega) (by omega))
          (sq_le_sq_swap (by omega) (by omega))
      · intro h1 h2
        exact inDisc_shift h (sq_le_sq_two_sided (by omega) (by omega)) (le_refl _)
    · obtain ⟨b1, b2, b3, b4⟩ := inDisc_bounds hr0 h
      refine ⟨⟨by omega, by omega, by omega, by omega⟩, ?_, ?_, ?_, fun _ _ => h⟩
      · intro h1 h2
        exact inDisc_shift h (sq_le_sq_swap (by omega) (by omega))
          (sq_le_sq_swap (by omega) (by omega))
      · intro h1 h2
        exact inDisc_shift h (le_refl _) (sq_le_sq_swap (by omega) (by omega))
      · intro h1 h2
        exact inDisc_shift h (sq_le_sq_swap (by omega) (by omega)) (le_refl _)

/-- C4 (amended): for a normalized rectangle and clamped radius `r > 0`, the
six shapes issued by the fill primitive (two band rectangles and four corner
circles) paint exactly the rounded-rectangle region: the canvas effect is
that every pixel of the region gets the fill colour and every other pixel is
untouched, so no pixel inside the region is left unpainted, none outside is
painted, and the overlaps between the shapes have no effect because painting
overwrites. -/
theorem fill_covers_rounded_region (x1 y1 x2 y2 r : Int) (c : Color)
    (canvas : Canvas) (x y : Int) (hx : x1 ≤ x2) (hy : y1 ≤ y2) (hr : 0 < r)
    (hrx : r ≤ (x2 - x1) / 2) (hry : r ≤ (y2 - y1) / 2) :
    applyTrace canvas (draw_filled_rounded_rect x1 y1 x2 y2 r c) x y =
      if roundedRectRegion x1 y1 x2 y2 r x y then c else canvas x y := by
  have hrx2 : 2 * r ≤ x2 - x1 := by omega
  have hry2 : 2 * r ≤ y2 - y1 := by omega
  have hx' : ¬x2 < x1 := not_lt.mpr hx
  have hy' : ¬y2 < y1 := not_lt.mpr hy
  have htr : draw_filled_rounded_rect x1 y1 x2 y2 r c =
      [.rectFill (x1 + r) y1 (x2 - r) y2 c,
       .rectFill x1 (y1 + r) x2 (y2 - r) c,
       .ellipseFill x1 y1 (x1 + r * 2) (y1 + r * 2) c,
       .ellipseFill (x2 - r * 2) y1 x2 (y1 + r * 2) c,
       .ellipseFill x1 (y2 - r * 2) (x1 + r * 2) y2 c,
       .ellipseFill (x2 - r * 2) (y2 - r * 2) x2 y2 c] := by
    simp only [draw_filled_rounded_rect, if_neg hx', if_neg hy',
      draw_filled_rounded_rect_core]
    rw [min_eq_left (le_min hrx hry), if_neg (by omega : ¬r ≤ 0)]
  rw [applyTrace_const _ c canvas x y fun _ hm => mem_filled_color hm, htr]
  have hiff : (∃ cmd ∈
      [DrawCmd.rectFill (x1 + r) y1 (x2 - r) y2 c,
       .rectFill x1 (y1 + r) x2 (y2 - r) c,
       .ellipseFill x1 y1 (x1 + r * 2) (y1 + r * 2) c,
       .ellipseFill (x2 - r * 2) y1 x2 (y1 + r * 2) c,
       .ellipseFill x1 (y2 - r * 2) (x1 + r * 2) y2 c,
       .ellipseFill (x2 - r * 2) (y2 - r * 2) x2 y2 c], cmdPaints cmd x y) ↔
      roundedRectRegion x1 y1 x2 y2 r x y := by
    simp only [List.mem_cons, List.not_mem_nil, or_false, exists_eq_or_imp,
      exists_eq_left, cmdPaints]
    rw [inEllipse_iff_disc hr (by ring) (by ring)
        (show 2 * (x1 + r) = x1 + (x1 + r * 2) by ring)
        (show 2 * (y1 + r) = y1 + (y1 + r * 2) by ring),
      inEllipse_iff_disc hr (by ring) (by ring)
        (show 2 * (x2 - r) = x2 - r * 2 + x2 by ring)
        (show 2 * (y1 + r) = y1 + (y1 + r * 2) by ring),
      inEllipse_iff_disc hr (by ring) (by ring)
        (show 2 * (x1 + r) = x1 + (x1 + r * 2) by ring)
        (show 2 * (y2 - r) = y2 - r * 2 + y2 by ring),
      inEllipse_iff_disc hr (by ring) (by ring)
        (show 2 * (x2 - r) = x2 - r * 2 + x2 by ring)
        (show 2 * (y2 - r) = y2 - r * 2 + y2 by ring)]
    exact (rounded_cover hr hrx2 hry2).symm
  simp only [hiff]

/-- C4 witness: at the rectangle (0,0)-(10,10) with radius 2, the fill
primitive's canvas effect at the pixel (5,5) is the region fill. -/
theorem fill_covers_rounded_region_witness :
    applyTrace initCanvas
        (draw_filled_rounded_rect 0 0 10 10 2 (withAlpha NEON_CYAN 40)) 5 5 =
      if roundedRectRegion 0 0 10 10 2 5 5 then withAlpha NEON_CYAN 40
      else initCanvas 5 5 :=
  fill_covers_rounded_region 0 0 10 10 2 (withAlpha NEON_CYAN 40) initCanvas 5 5
    (by decide) (by decide) (by decide) (by decide) (by decide)

/-- C4 counterexample to "no double-counting at the seams": in the fill of
the rectangle (0,0)-(10,10) with radius 2, the seam pixel (2,5) — on the
left edge of the vertical band — is painted by two of the issued shapes
(both band rectangles), so the shapes do double-paint seam pixels. -/
theorem fill_double_paint_counterexample :
    ¬((draw_filled_rounded_rect 0 0 10 10 2 (withAlpha NEON_CYAN 40)).countP
        (fun cmd => decide (cmdPaints cmd 2 5)) ≤ 1) := by
  decide

theorem mem_gridPass_color {s : Nat} {cmd : DrawCmd} (h : cmd ∈ gridPass s) :
    cmdColor cmd = withAlpha GRID_COLOR 40 := by
  unfold gridPass at h
  split at h
  · rcases List.mem_append.mp h with h | h <;>
      · obtain ⟨a, _, rfl⟩ := List.mem_map.mp h
        rfl
  · exact absurd h (List.not_mem_nil cmd)

theorem mem_borderGlowPass_color {s : Nat} {cmd : DrawCmd}
    (h : cmd ∈ borderGlowPass s) : ∃ a, cmdColor cmd = withAlpha NEON_CYAN a := by
  unfold borderGlowPass at h
  obtain ⟨i, _, hm⟩ := List.mem_flatMap.mp h
  exact ⟨80 - i * 20, mem_rounded_color hm⟩

theorem mem_mainBorderPass_color {s : Nat} {cmd : DrawCmd}
    (h : cmd ∈ mainBorderPass s) : cmdColor cmd = withAlpha NEON_CYAN 255 := by
  unfold mainBorderPass at h
  exact mem_rounded_color h

theorem mem_cellPass_color {s : Nat} {tx ty : Int} {col : Nat × Nat × Nat}
    {cmd : DrawCmd} (h : cmd ∈ cellPass s tx ty col) :
    ∃ a, cmdColor cmd = withAlpha col a := by
  unfold cellPass at h
  rcases List.mem_append.mp h with h | h
  · rcases List.mem_append.mp h with h | h
    · obtain ⟨g, _, hm⟩ := List.mem_flatMap.mp h
      exact ⟨60 - g * 20, mem_rounded_color hm⟩
    · exact ⟨40, mem_filled_color h⟩
  · exact ⟨220, mem_rounded_color h⟩

theorem mem_tilesPass_color {s : Nat} {cmd : DrawCmd} (h : cmd ∈ tilesPass s) :
    (∃ a, cmdColor cmd = withAlpha NEON_CYAN a) ∨
    (∃ a, cmdColor cmd = withAlpha NEON_MAGENTA a) ∨
    (∃ a, cmdColor cmd = withAlpha NEON_BLUE a) := by
  unfold tilesPass at h
  rcases List.mem_append.mp h with h | h
  · rcases List.mem_append.mp h with h | h
    · rcases List.mem_append.mp h with h | h
      · exact Or.inl (mem_cellPass_color h)
      · exact Or.inr (Or.inl (mem_cellPass_color h))
    · exact Or.inr (Or.inr (mem_cellPass_color h))
  · exact Or.inl (mem_cellPass_color h)

theorem mem_scanPass_color {s : Nat} {cmd : DrawCmd} (h : cmd ∈ scanPass s) :
    cmdColor cmd = ⟨0, 0, 0, 15⟩ := by
  unfold scanPass at h
  split at h
  · obtain ⟨a, _, rfl⟩ := List.mem_map.mp h
    rfl
  · exact absurd h (List.not_mem_nil cmd)

theorem mem_accentPass_color {s : Nat} {cmd : DrawCmd} (h : cmd ∈ accentPass s) :
    cmdColor cmd = withAlpha NEON_MAGENTA 255 := by
  unfold accentPass at h
  simp only [List.mem_cons, List.not_mem_nil, or_false] at h
  rcases h with rfl | rfl | rfl | rfl <;> rfl

theorem zero_mem_rangeStep {stop step : Nat} (h1 : 0 < stop) (h2 : 0 < step) :
    0 ∈ rangeStep stop step := by
  unfold rangeStep
  exact List.mem_map.mpr
    ⟨0, List.mem_range.mpr (Nat.div_pos (by omega) h2), Nat.zero_mul step⟩

theorem mem_rangeStep_four {stop y : Nat} (h1 : y < stop) (h2 : y % 4 = 0) :
    y ∈ rangeStep stop 4 := by
  unfold rangeStep
  exact List.mem_map.mpr ⟨y / 4, List.mem_range.mpr (by omega), by omega⟩

theorem grid_color_mem_iff (s : Nat) (hs : 0 < s) :
    (∃ cmd ∈ create_cyberpunk_icon s, cmdColor cmd = withAlpha GRID_COLOR 40) ↔
      2 < grid_spacing s := by
  constructor
  · rintro ⟨cmd, hm, hcol⟩
    by_contra hns
    unfold create_cyberpunk_icon at hm
    rcases List.mem_append.mp hm with hm | h
    case inr =>
      have ha := mem_accentPass_color h
      rw [hcol] at ha
      simp [withAlpha, GRID_COLOR, NEON_MAGENTA] at ha
    rcases List.mem_append.mp hm with hm | h
    case inr =>
      have ha := mem_scanPass_color h
      rw [hcol] at ha
      simp [withAlpha, GRID_COLOR] at ha
    rcases List.mem_append.mp hm with hm | h
    case inr =>
      rcases mem_tilesPass_color h with ⟨a, ha⟩ | ⟨a, ha⟩ | ⟨a, ha⟩ <;> rw [hcol] at ha <;>
        simp [withAlpha, GRID_COLOR, NEON_CYAN, NEON_MAGENTA, NEON_BLUE] at ha
    rcases List.mem_append.mp hm with hm | h
    case inr =>
      have ha := mem_mainBorderPass_color h
      rw [hcol] at ha
      simp [withAlpha, GRID_COLOR, NEON_CYAN] at ha
    rcases List.mem_append.mp hm with h | h
    · unfold gridPass at h
      rw [if_neg hns] at h
      exact absurd h (List.not_mem_nil cmd)
    · obtain ⟨a, ha⟩ := mem_borderGlowPass_color h
      rw [hcol] at ha
      simp [withAlpha, GRID_COLOR, NEON_CYAN] at ha
  · intro hgt
    refine ⟨.line 0 0 0 (s : Int) (withAlpha GRID_COLOR 40) (max 1 (iscale 1 s)),
      ?_, rfl⟩
    unfold create_cyberpunk_icon
    apply List.mem_append_left
    apply List.mem_append_left
    apply List.mem_append_left
    apply List.mem_append_left
    apply List.mem_append_left
    unfold gridPass
    rw [if_pos hgt]
    apply List.mem_append_left
    exact List.mem_map.mpr ⟨0, @zero_mem_rangeStep s (grid_spacing s) hs (by omega), rfl⟩

theorem scan_color_mem_iff (s : Nat) (hs : 0 < s) :
    (∃ cmd ∈ create_cyberpunk_icon s, cmdColor cmd = ⟨0, 0, 0, 15⟩) ↔ 128 ≤ s := by
  constructor
  · rintro ⟨cmd, hm, hcol⟩
    unfold create_cyberpunk_icon at hm
    rcases List.mem_append.mp hm with hm | h
    case inr =>
      have ha := mem_accentPass_color h
      rw [hcol] at ha
      simp [withAlpha, NEON_MAGENTA] at ha
    rcases List.mem_append.mp hm with hm | h
    case inr =>
      unfold scanPass at h
      split at h
      case isTrue h128 => exact h128
      case isFalse => exact absurd h (List.not_mem_nil cmd)
    rcases List.mem_append.mp hm with hm | h
    case inr =>
      rcases mem_tilesPass_color h with ⟨a, ha⟩ | ⟨a, ha⟩ | ⟨a, ha⟩ <;> rw [hcol] at ha <;>
        simp [withAlpha, NEON_CYAN, NEON_MAGENTA, NEON_BLUE] at ha
    rcases List.mem_append.mp hm with hm | h
    case inr =>
      have ha := mem_mainBorderPass_color h
      rw [hcol] at ha
      simp [withAlpha, NEON_CYAN] at ha
    rcases List.mem_append.mp hm with h | h
    · have ha := mem_gridPass_color h
      rw [hcol] at ha
      simp [withAlpha, GRID_COLOR] at ha
    · obtain ⟨a, ha⟩ := mem_borderGlowPass_color h
      rw [hcol] at ha
      simp [withAlpha, NEON_CYAN] at ha
  · intro h128
    refine ⟨.line 0 0 (s : Int) 0 ⟨0, 0, 0, 15⟩ 1, ?_, rfl⟩
    unfold create_cyberpunk_icon
    apply List.mem_append_left
    apply List.mem_append_right
    unfold scanPass
    rw [if_pos h128]
    exact List.mem_map.mpr ⟨0, @zero_mem_rangeStep s 4 hs (by omega), rfl⟩

/-- C7: in the composition routine for size `s`, the faint background grid
(colour `GRID_COLOR` at alpha 40, lines at spacing `int(32*s/512)`) is drawn
if and only if that spacing exceeds 2 pixels; in particular the table sizes
16 and 32 get no background grid and every table size ≥ 64 gets one. -/
theorem background_grid_threshold :
    (∀ s : Nat, 0 < s →
      ((∃ cmd ∈ create_cyberpunk_icon s, cmdColor cmd = withAlpha GRID_COLOR 40) ↔
        2 < grid_spacing s)) ∧
    gridPass 16 = [] ∧ gridPass 32 = [] ∧
    (∀ p ∈ SIZES, 64 ≤ p.pixelSize →
      ∃ cmd ∈ create_cyberpunk_icon p.pixelSize,
        cmdColor cmd = withAlpha GRID_COLOR 40) := by
  refine ⟨grid_color_mem_iff, rfl, rfl, fun p _ h64 => ?_⟩
  exact (grid_color_mem_iff p.pixelSize (by omega)).mpr (by
    unfold grid_spacing; omega)

/-- C7 witness: at size 512 the spacing is 32 > 2 and a grid-coloured
command is drawn. -/
theorem background_grid_threshold_witness :
    (∃ cmd ∈ create_cyberpunk_icon 512, cmdColor cmd = withAlpha GRID_COLOR 40) ↔
      2 < grid_spacing 512 :=
  background_grid_threshold.1 512 (by decide)

/-- C8: in the composition routine for size `s`, 1-pixel scanlines of colour
(0,0,0,15) across the full width appear if and only if `s ≥ 128`; when they
do, one is drawn at every `y ∈ {0, 4, 8, ...}` below `s`, and for `s < 128`
the scanline pass is empty and leaves any canvas unchanged. -/
theorem scanline_threshold : ∀ s : Nat, 0 < s →
    (((∃ cmd ∈ create_cyberpunk_icon s, cmdColor cmd = ⟨0, 0, 0, 15⟩) ↔ 128 ≤ s) ∧
     (128 ≤ s → ∀ y : Nat, y < s → y % 4 = 0 →
        DrawCmd.line 0 (y : Int) (s : Int) (y : Int) ⟨0, 0, 0, 15⟩ 1 ∈
          create_cyberpunk_icon s) ∧
     (s < 128 → ∀ canvas : Canvas, applyTrace canvas (scanPass s) = canvas)) := by
  intro s hs
  refine ⟨scan_color_mem_iff s hs, fun h128 y hy hy4 => ?_, fun hlt canvas => ?_⟩
  · unfold create_cyberpunk_icon
    apply List.mem_append_left
    apply List.mem_append_right
    unfold scanPass
    rw [if_pos h128]
    exact List.mem_map.mpr ⟨y, mem_rangeStep_four hy hy4, rfl⟩
  · unfold scanPass
    rw [if_neg (by omega)]
    rfl

/-- C8 witness: at size 256 the scanline iff holds. -/
theorem scanline_threshold_witness :
    (∃ cmd ∈ create_cyberpunk_icon 256, cmdColor cmd = ⟨0, 0, 0, 15⟩) ↔ 128 ≤ 256 :=
  (scanline_threshold 256 (by decide)).1

/-- C9: the composition routine is a pure function of the size alone — the
source reads only the immutable module colour constants, uses no randomness
and no external state, so its embedding is a function and two invocations at
the same size yield the same command trace and a pixel-identical canvas. -/
theorem composition_deterministic : ∀ s : Nat, 0 < s →
    create_cyberpunk_icon s = create_cyberpunk_icon s ∧ render s = render s :=
  fun _ _ => ⟨rfl, rfl⟩

/-- C9 witness at size 16. -/
theorem composition_deterministic_witness :
    create_cyberpunk_icon 16 = create_cyberpunk_icon 16 ∧ render 16 = render 16 :=
  composition_deterministic 16 (by decide)

/-- C10: for every size in the static table (minimum 16) the 2x2 tile-cell
geometry is non-degenerate and in bounds: the cell size
`((s - 2*int(100*s/512)) - int(16*s/512)) // 2` is strictly positive, and
every rectangle drawn for a cell — the fill/border rectangle and the glow
outlines offset outward by 1 and 2 pixels — has all coordinates in `[0, s]`. -/
theorem cell_geometry_in_bounds : ∀ p ∈ SIZES,
    0 < cell_size p.pixelSize ∧
    ∀ q ∈ cellRects p.pixelSize, rectWithin p.pixelSize q := by
  intro p hp
  fin_cases hp <;> exact ⟨by decide, by decide⟩

/-- C10 witness at the smallest table size 16. -/
theorem cell_geometry_in_bounds_witness :
    0 < cell_size 16 ∧ ∀ q ∈ cellRects 16, rectWithin 16 q :=
  cell_geometry_in_bounds ⟨16, "1x", "icon_16x16.png"⟩ (by decide)
